import Mathlib

/-!
Verification development for the whatsapp-cli terminal client.

The state-reconciliation core lives in `src/ui/App.tsx`; the definitions
below are a shallow embedding of its pure state operations:

* JavaScript strings are modelled as `List Char` (`Str`);
* an object field that may be absent is an `Option`, with `none` meaning
  "key absent or `undefined`";
* JavaScript truthiness of a string is "non-empty", of a boolean field
  "present and `true`", and an object is always truthy;
* the clock value `Math.floor(Date.now()/1000)` is threaded as an
  explicit `now : Nat` argument;
* `Array.prototype.sort` with a consistent comparator is, per the
  ECMAScript stable-sort guarantee, the unique stable sort for the
  comparator's preorder, hence modelled by `List.insertionSort`.
-/

namespace WAC

/-- JavaScript string values, as character lists. -/
abbrev Str := List Char

/-- JS truthiness of a possibly-absent string: `undefined` and `""` are falsy. -/
def truthyS : Option Str → Bool
  | none => false
  | some s => !s.isEmpty

/-- JS truthiness of a possibly-absent boolean field: only a present `true`. -/
def truthyB : Option Bool → Bool
  | some true => true
  | _ => false

/-- JS `a || b` on two possibly-absent string fields. -/
def jsOrS (a b : Option Str) : Option Str := if truthyS a then a else b

/-- The legacy per-device identifier suffix `@c.us`. -/
def legacySuffix : Str := "@c.us".toList

/-- The canonical identifier suffix `@s.whatsapp.net`. -/
def canonicalSuffix : Str := "@s.whatsapp.net".toList

/-- The group-chat identifier suffix `@g.us`. -/
def groupSuffix : Str := "@g.us".toList

/-- JS `String.prototype.replace` with a plain-string pattern: replaces only
the first occurrence (the source calls `jid.replace('@c.us', '@s.whatsapp.net')`
and `jid.replace('@s.whatsapp.net', '@c.us')`). -/
def replaceFirst (pat repl : Str) : Str → Str
  | [] => []
  | c :: rest =>
    if pat.isPrefixOf (c :: rest) then repl ++ (c :: rest).drop pat.length
    else c :: replaceFirst pat repl rest

/-- `normalizeJid` from App.tsx: `!jid` guard, then map the legacy suffix to
the canonical one; all other strings pass through. -/
def normalizeJid (jid : Str) : Str :=
  if jid.isEmpty then jid
  else if legacySuffix.isSuffixOf jid then replaceFirst legacySuffix canonicalSuffix jid
  else if canonicalSuffix.isSuffixOf jid then jid
  else jid

/-- A contact record: address-book `name` vs. self-reported `notify`.
The same shape serves as the `upsertContacts` payload element. -/
structure Contact where
  id : Str
  name : Option Str := none
  notify : Option Str := none
deriving DecidableEq

/-- The contact collection, a JS `Record<string, Contact>`. -/
abbrev ContactsMap := Str → Option Contact

/-- `getContactById`:
`contacts[jid] || contacts[normalized] || contacts[jid.replace('@s.whatsapp.net','@c.us')]`. -/
def getContactById (contacts : ContactsMap) (jid : Str) : Option Contact :=
  (contacts jid).or ((contacts (normalizeJid jid)).or
    (contacts (replaceFirst canonicalSuffix legacySuffix jid)))

/-- `looksLikeMemberList`: falsy names are not member lists; otherwise the
heuristic is "contains `,` or `;`". -/
def looksLikeMemberList (name : Option Str) : Bool :=
  if !truthyS name then false
  else (name.getD []).contains ',' || (name.getD []).contains ';'

/-- The regular-expression test `/^[\d\s+()-]+$/.test(chatName)`: non-empty and
every character a digit, whitespace, or one of `+ ( ) -`. -/
def isNumericLike (s : Str) : Bool :=
  !s.isEmpty && s.all (fun c => c.isDigit || c.isWhitespace || c == '+' || c == '(' || c == ')' || c == '-')

/-- `normalizedId.split('@')[0]`: the part before the first `@` (the whole
string when no `@` occurs). -/
def localPart (s : Str) : Str := s.takeWhile (fun c => c != '@')

/-- The manual alias mapping (`contactOverrides` state). -/
abbrev OverridesMap := Str → Option Str

/-- `getDisplayName` from App.tsx: best display name for `id`, given the
override and contact state and the optional chat-name / group-subject hints. -/
def getDisplayName (contactOverrides : OverridesMap) (contacts : ContactsMap)
    (id : Str) (chatName : Option Str) (groupSubject : Option Str) : Str :=
  if id.isEmpty then "Unknown".toList
  else
    let normalizedId := normalizeJid id
    let contact := getContactById contacts normalizedId
    let isGroup := groupSuffix.isSuffixOf normalizedId
    if truthyS (contactOverrides normalizedId) then (contactOverrides normalizedId).getD []
    else if truthyS (contact.bind Contact.name) && !looksLikeMemberList (contact.bind Contact.name) then
      (contact.bind Contact.name).getD []
    else if !isGroup && truthyS (contact.bind Contact.notify) then
      (contact.bind Contact.notify).getD []
    else if isGroup then
      if truthyS groupSubject && !looksLikeMemberList groupSubject then groupSubject.getD []
      else if truthyS chatName && !looksLikeMemberList chatName && !(chatName.getD []).contains '@' then
        chatName.getD []
      else "Group".toList
    else if truthyS chatName && !isNumericLike (chatName.getD []) && !looksLikeMemberList chatName then
      chatName.getD []
    else localPart normalizedId

/-- Cached group metadata; the reconciler treats the fetched value opaquely
(only its presence and `subject` are consulted by the claimed operations). -/
structure GroupMetadata where
  subject : Str
deriving DecidableEq

/-- A chat entry (the `Chat` interface of App.tsx; every field but `id` is
optional). -/
structure Chat where
  id : Str
  name : Option Str := none
  lastMessage : Option Str := none
  unreadCount : Option Nat := none
  isGroup : Option Bool := none
  presence : Option Str := none
  groupMetadata : Option GroupMetadata := none
  timestamp : Option Nat := none
deriving DecidableEq

/-- A `Partial<Chat>` update payload, as passed to `updateChatList`; `none`
means the key is absent.  All call sites pass either no `id` key or an `id`
equal to the first argument, so the payload carries no separate `id`. -/
structure ChatUpdate where
  name : Option Str := none
  lastMessage : Option Str := none
  unreadCount : Option Nat := none
  isGroup : Option Bool := none
  presence : Option Str := none
  groupMetadata : Option GroupMetadata := none
  timestamp : Option Nat := none
deriving DecidableEq

/-- The object spread `{ ...existing, ...update }`: a field present in the
update overwrites the existing one. -/
def spreadChat (e : Chat) (u : ChatUpdate) : Chat :=
  { id := e.id
    name := u.name.or e.name
    lastMessage := u.lastMessage.or e.lastMessage
    unreadCount := u.unreadCount.or e.unreadCount
    isGroup := u.isGroup.or e.isGroup
    presence := u.presence.or e.presence
    groupMetadata := u.groupMetadata.or e.groupMetadata
    timestamp := u.timestamp.or e.timestamp }

/-- The name adjustment of `updateChatList`'s existing-chat branch
("Keep group names stable unless metadata update"), applied after the spread. -/
def applyNameRule (updated existing : Chat) (u : ChatUpdate) (isGroup : Bool) : Chat :=
  if isGroup && truthyS u.name && u.groupMetadata.isNone && !truthyB u.isGroup then
    if !looksLikeMemberList u.name then { updated with name := jsOrS existing.name u.name }
    else updated
  else
    if !isGroup || !looksLikeMemberList u.name then { updated with name := jsOrS u.name existing.name }
    else updated

/-- `(c.timestamp || 0)` as used by the sort comparator. -/
def tsD (c : Chat) : Nat := c.timestamp.getD 0

/-- The ordering induced by the comparator
`(a, b) => (b.timestamp || 0) - (a.timestamp || 0)`: timestamp descending. -/
def chatLe (a b : Chat) : Prop := tsD b ≤ tsD a

instance : DecidableRel chatLe := fun _ _ => Nat.decLe _ _

/-- `next[index] = updated` with `index = prev.findIndex(c => c.id === chatId)`:
replace the first entry whose id matches. -/
def setFirstById (l : List Chat) (chatId : Str) (v : Chat) : List Chat :=
  match l with
  | [] => []
  | c :: rest => if c.id = chatId then v :: rest else c :: setFirstById rest chatId v

/-- `updateChatList` from App.tsx.  `now` is the clock value
`Math.floor(Date.now()/1000)` used when creating a chat without a timestamp. -/
def updateChatList (prev : List Chat) (chatId : Str) (u : ChatUpdate) (now : Nat) : List Chat :=
  let isGroup := groupSuffix.isSuffixOf chatId
  match prev.find? (fun c => decide (c.id = chatId)) with
  | some existing =>
    let updated := applyNameRule (spreadChat existing u) existing u isGroup
    if truthyS u.lastMessage then
      updated :: prev.filter (fun c => decide (c.id ≠ chatId))
    else
      List.insertionSort chatLe (setFirstById prev chatId updated)
  | none =>
    let base : Chat :=
      { id := chatId
        name := u.name
        lastMessage := some (u.lastMessage.getD [])
        unreadCount := some (u.unreadCount.getD 0)
        isGroup := some isGroup
        timestamp := some (if u.timestamp.getD 0 ≠ 0 then u.timestamp.getD 0 else now) }
    List.insertionSort chatLe (spreadChat base u :: prev)

/-- `{ ...next[k], ...c, id: k }`: merge a contact payload over whatever is
stored under key `k`, forcing the stored `id` to `k`. -/
def mergeContact (old : Option Contact) (c : Contact) (k : Str) : Contact :=
  { id := k
    name := c.name.or (old.bind Contact.name)
    notify := c.notify.or (old.bind Contact.notify) }

/-- Point update of the contact record. -/
def mapInsert (m : ContactsMap) (k : Str) (v : Contact) : ContactsMap :=
  fun k' => if k' = k then some v else m k'

/-- `updateContacts` from App.tsx: each payload contact is written under both
its normalized id and its original id, merging over the present entries. -/
def updateContacts (prev : ContactsMap) (newContacts : List Contact) : ContactsMap :=
  newContacts.foldl
    (fun m c =>
      let normalizedId := normalizeJid c.id
      let m1 := mapInsert m normalizedId (mergeContact (m normalizedId) c normalizedId)
      mapInsert m1 c.id (mergeContact (m1 c.id) c c.id))
    prev

/-- A quoted-message reference carried by a message. -/
structure ReplyRef where
  text : Str
  participant : Str
deriving DecidableEq

/-- A formatted message (the `Message` interface; the opaque `raw` transport
payload is not consulted by any claimed operation and is omitted). -/
structure Message where
  id : Str
  from' : Str
  text : Str
  timestamp : Nat
  isMe : Bool
  replyTo : Option ReplyRef := none
deriving DecidableEq

/-- The per-chat window update of the `messages.upsert` handler:
`[...(prev[chatId] || []).slice(-49), formatted]` (keep the last 49, append). -/
def appendMessage (window : List Message) (m : Message) : List Message :=
  window.drop (window.length - 49) ++ [m]

/-- The action performed by one escape key press in `useInput`. -/
inductive EscapeAction where
  | clearReply
  | closeMembers
  | clearSearch
  | exitApp
deriving DecidableEq

/-- The escape branch of `useInput`:
`if (replyingTo) ... else if (showMembers) ... else if (searchQuery) ... else exit()`. -/
def escapeAction (replyingTo : Option Message) (showMembers : Bool) (searchQuery : Str) : EscapeAction :=
  if replyingTo.isSome then .clearReply
  else if showMembers then .closeMembers
  else if !searchQuery.isEmpty then .clearSearch
  else .exitApp

/-- The four state-store collections owned by `App`. -/
structure Store where
  chats : List Chat
  contacts : ContactsMap
  messages : Str → List Message
  contactOverrides : OverridesMap

/-- The store part of the mark-read effect on switching `selectedChatId`:
`setChats(prev => prev.map(c => c.id === selectedChatId ? { ...c, unreadCount: 0 } : c))`.
The effect touches no other collection. -/
def markReadStore (st : Store) (selectedChatId : Str) : Store :=
  { st with
    chats := st.chats.map
      (fun c => if c.id = selectedChatId then { c with unreadCount := some 0 } else c) }

/-- A persisted file as seen at startup: absent, unparseable, or parsed. -/
inductive Blob (α : Type) where
  | missing
  | malformed
  | parsed (data : α)

/-- The contents of `whatsapp_data.json`; each collection key may be absent. -/
structure RawData where
  chats : Option (List Chat) := none
  contacts : Option ContactsMap := none
  messages : Option (Str → List Message) := none

/-- `loadInitialData`: a missing file or a parse failure yields `{}`. -/
def loadInitialData : Blob RawData → RawData
  | .missing => {}
  | .malformed => {}
  | .parsed d => d

/-- `loadContactOverrides`: a missing file or a parse failure yields `{}`. -/
def loadContactOverrides : Blob OverridesMap → OverridesMap
  | .missing => fun _ => none
  | .malformed => fun _ => none
  | .parsed m => m

/-- The initial store built in `App` from the two persisted records
(`initialData.chats || []`, `initialData.contacts || {}`,
`initialData.messages || {}`, `initialOverrides || {}`). -/
def initialStore (b1 : Blob RawData) (b2 : Blob OverridesMap) : Store :=
  let d := loadInitialData b1
  { chats := d.chats.getD []
    contacts := d.contacts.getD (fun _ => none)
    messages := d.messages.getD (fun _ => [])
    contactOverrides := loadContactOverrides b2 }

/-- The empty initial state. -/
def emptyStore : Store :=
  { chats := [], contacts := fun _ => none, messages := fun _ => [], contactOverrides := fun _ => none }

/-- One `upsertChat` request: target id, partial payload, clock value. -/
structure UpsertOp where
  chatId : Str
  update : ChatUpdate
  now : Nat

/-- A sequence of `upsertChat` operations applied to the chat collection. -/
def applyUpserts (init : List Chat) (ops : List UpsertOp) : List Chat :=
  ops.foldl (fun l op => updateChatList l op.chatId op.update op.now) init

/-- The last `n` entries of a list (proof-side helper for the window bound). -/
def lastN {α : Type} (n : Nat) (l : List α) : List α := l.drop (l.length - n)

/-- The data-model invariant of claim C8: every stored chat's `isGroup` field
equals the group-suffix predicate applied to its own id. -/
def IsGroupConsistent (l : List Chat) : Prop :=
  ∀ c ∈ l, c.isGroup = some (groupSuffix.isSuffixOf c.id)

/-- An upsert payload whose `isGroup` field, when present, agrees with the
suffix derived from the target id (every call site in the repository builds
its payloads this way, via `c.id.endsWith('@g.us')`). -/
def GoodIsGroupOp (op : UpsertOp) : Prop :=
  op.update.isGroup = none ∨ op.update.isGroup = some (groupSuffix.isSuffixOf op.chatId)

/-- A concrete message used by evaluation witnesses. -/
def stubMsg (n : Nat) : Message :=
  { id := [], from' := [], text := [], timestamp := n, isMe := false }

/-- The stored entry for a conversation: the first chat whose id matches,
exactly as `find`/`findIndex` locate it. -/
def chatEntry (l : List Chat) (chatId : Str) : Option Chat :=
  l.find? (fun c => decide (c.id = chatId))

/-- The data-model well-formedness of the chat collection (§3 of the spec:
"one entry per conversation"): stored ids are pairwise distinct. -/
def UniqueIds (l : List Chat) : Prop := (l.map Chat.id).Nodup

/-- The entry produced by `updateChatList`'s existing-chat branch. -/
def mergedEntry (existing : Chat) (chatId : Str) (u : ChatUpdate) : Chat :=
  applyNameRule (spreadChat existing u) existing u (groupSuffix.isSuffixOf chatId)

/-- The entry produced by `updateChatList`'s creation branch. -/
def createdEntry (chatId : Str) (u : ChatUpdate) (now : Nat) : Chat :=
  spreadChat
    { id := chatId
      name := u.name
      lastMessage := some (u.lastMessage.getD [])
      unreadCount := some (u.unreadCount.getD 0)
      isGroup := some (groupSuffix.isSuffixOf chatId)
      timestamp := some (if u.timestamp.getD 0 ≠ 0 then u.timestamp.getD 0 else now) } u

/-- The payload contacts written under key `k` by one `updateContacts` call,
in write order (each list element is written under its normalized id and then
under its original id). -/
def contactWrites (k : Str) : List Contact → List Contact
  | [] => []
  | c :: L =>
    ((if normalizeJid c.id = k then [c] else []) ++ (if c.id = k then [c] else [])) ++
      contactWrites k L

/-- Sequential merge of a write list over the value stored at key `k`. -/
def applyWrites (k : Str) (x : Option Contact) (ws : List Contact) : Option Contact :=
  ws.foldl (fun acc c => some (mergeContact acc c k)) x

/-- Left fold of `Option.or` (latest present value wins). -/
def orFold {α : Type} (l : List (Option α)) (a : Option α) : Option α :=
  l.foldl (fun acc o => o.or acc) a

/-- Concrete identifiers and chat list used by the reordering scenarios. -/
def aId : Str := "a@s.whatsapp.net".toList

def bId : Str := "b@s.whatsapp.net".toList

def cId : Str := "c@s.whatsapp.net".toList

/-- Three chats sorted by timestamp descending. -/
def chatsABC : List Chat :=
  [{ id := aId, timestamp := some 100 },
   { id := bId, timestamp := some 50 },
   { id := cId, timestamp := some 10 }]

/-! ## Helper lemmas -/

theorem lastN_eq {α : Type} (n : Nat) (l : List α) : lastN n l = (l.reverse.take n).reverse := by
  unfold lastN
  rw [List.reverse_take]
  simp

theorem lastN_lastN_append {α : Type} {n k : Nat} (hnk : n ≤ k) (x y : List α) :
    lastN n (lastN k x ++ y) = lastN n (x ++ y) := by
  rw [lastN_eq k x, lastN_eq n (x ++ y), lastN_eq]
  rw [List.reverse_append, List.reverse_reverse, List.reverse_append]
  rw [List.take_append_eq_append_take, List.take_append_eq_append_take, List.take_take]
  have h : (n - y.reverse.length) ⊓ k = n - y.reverse.length := by
    simp only [List.length_reverse]
    omega
  rw [h]

theorem appendMessage_eq_lastN (w : List Message) (m : Message) :
    appendMessage w m = lastN 50 (w ++ [m]) := by
  unfold appendMessage lastN
  rw [List.drop_append_eq_append_drop]
  have h1 : (w ++ [m]).length - 50 - w.length = 0 := by
    simp only [List.length_append, List.length_singleton]
    omega
  have h2 : w.length - 49 = (w ++ [m]).length - 50 := by
    simp only [List.length_append, List.length_singleton]
    omega
  rw [h1, h2]
  simp

theorem foldl_appendMessage (ms : List Message) :
    ∀ w : List Message, ms ≠ [] → ms.foldl appendMessage w = lastN 50 (w ++ ms) := by
  induction ms with
  | nil => intro w h; exact absurd rfl h
  | cons m ms ih =>
    intro w _
    cases ms with
    | nil => simpa using appendMessage_eq_lastN w m
    | cons m2 ms2 =>
      rw [List.foldl_cons, ih _ (by simp), appendMessage_eq_lastN,
        lastN_lastN_append (Nat.le_refl 50), List.append_assoc, List.singleton_append]

/-! ## Claim theorems -/

/-- C9: restoring persisted state from a missing or malformed (unparseable)
blob yields the empty initial state (no chats, contacts, messages, or
overrides) and never fails; a well-formed blob yields its recorded
collections. -/
theorem claim_C9_restore_fallback :
    initialStore .missing .missing = emptyStore ∧
    initialStore .malformed .malformed = emptyStore ∧
    initialStore .missing .malformed = emptyStore ∧
    initialStore .malformed .missing = emptyStore ∧
    ∀ (cs : List Chat) (ks : ContactsMap) (ms : Str → List Message) (ov : OverridesMap),
      initialStore (.parsed { chats := some cs, contacts := some ks, messages := some ms }) (.parsed ov) =
        { chats := cs, contacts := ks, messages := ms, contactOverrides := ov } :=
  ⟨rfl, rfl, rfl, rfl, fun _ _ _ _ => rfl⟩

/-- C10: the mark-read effect on switching the selected chat zeroes only the
`unreadCount` of chats with the selected id; every other chat entry, every
other field of the selected chat, and the contact, message and override
collections are unchanged. -/
theorem claim_C10_mark_read_frame (st : Store) (sel : Str) :
    (markReadStore st sel).contacts = st.contacts ∧
    (markReadStore st sel).messages = st.messages ∧
    (markReadStore st sel).contactOverrides = st.contactOverrides ∧
    (markReadStore st sel).chats.length = st.chats.length ∧
    ∀ i : Nat,
      ((markReadStore st sel).chats[i]?.map Chat.id = st.chats[i]?.map Chat.id) ∧
      ((markReadStore st sel).chats[i]?.map Chat.name = st.chats[i]?.map Chat.name) ∧
      ((markReadStore st sel).chats[i]?.map Chat.lastMessage = st.chats[i]?.map Chat.lastMessage) ∧
      ((markReadStore st sel).chats[i]?.map Chat.isGroup = st.chats[i]?.map Chat.isGroup) ∧
      ((markReadStore st sel).chats[i]?.map Chat.presence = st.chats[i]?.map Chat.presence) ∧
      ((markReadStore st sel).chats[i]?.map Chat.groupMetadata = st.chats[i]?.map Chat.groupMetadata) ∧
      ((markReadStore st sel).chats[i]?.map Chat.timestamp = st.chats[i]?.map Chat.timestamp) ∧
      ((markReadStore st sel).chats[i]?.map Chat.unreadCount =
        st.chats[i]?.map (fun c => if c.id = sel then some 0 else c.unreadCount)) := by
  refine ⟨rfl, rfl, rfl, by simp [markReadStore], ?_⟩
  intro i
  simp only [markReadStore, List.getElem?_map, ← Option.map_comp_map, Function.comp]
  cases h : st.chats[i]? with
  | none => simp
  | some c =>
    by_cases hc : c.id = sel <;> simp [hc, Option.map]

/-- C5 counterexample: with reply mode inactive, the members overlay visible
and a non-empty search query, an escape press closes the members overlay; the
claim's priority order says it should clear the search query instead. -/
theorem claim_C5_cex :
    escapeAction none true "x".toList = .closeMembers ∧
    escapeAction none true "x".toList ≠ .clearSearch := by
  constructor <;> decide

/-- C5 (amended): each escape press performs exactly one of the four actions,
chosen by the priority reply mode > members overlay > search query > exit
(the source checks `showMembers` before `searchQuery`). -/
theorem claim_C5_escape_priority (r : Option Message) (m : Bool) (q : Str) :
    (escapeAction r m q = .clearReply ↔ r.isSome = true) ∧
    (escapeAction r m q = .closeMembers ↔ r.isSome = false ∧ m = true) ∧
    (escapeAction r m q = .clearSearch ↔ r.isSome = false ∧ m = false ∧ q ≠ []) ∧
    (escapeAction r m q = .exitApp ↔ r.isSome = false ∧ m = false ∧ q = []) := by
  cases r <;> cases m <;> cases q <;> simp [escapeAction]

/-- C3: appending 60 messages one at a time to an initially empty window via
`appendMessage` leaves exactly the most recent 50, in oldest-first order;
moreover every single append leaves at most 50 entries, the window being the
most recent 50 of the appended history (oldest evicted from the front). -/
theorem claim_C3_window_retention :
    (∀ ms : List Message, ms.length = 60 → ms.foldl appendMessage [] = ms.drop 10) ∧
    (∀ (w : List Message) (m : Message),
      (appendMessage w m).length ≤ 50 ∧
      appendMessage w m = (w ++ [m]).drop ((w ++ [m]).length - 50)) := by
  constructor
  · intro ms hlen
    have hne : ms ≠ [] := by
      intro h
      rw [h] at hlen
      simp at hlen
    rw [foldl_appendMessage ms [] hne]
    unfold lastN
    rw [List.nil_append, hlen]
  · intro w m
    constructor
    · simp only [appendMessage, List.length_append, List.length_drop, List.length_singleton]
      omega
    · exact appendMessage_eq_lastN w m

/-- C3 witness: a concrete 60-message history. -/
theorem claim_C3_witness :
    ((List.range 60).map stubMsg).length = 60 ∧
    ((List.range 60).map stubMsg).foldl appendMessage [] = ((List.range 60).map stubMsg).drop 10 :=
  ⟨by simp, claim_C3_window_retention.1 _ (by simp)⟩

/-- When a string does not end in the legacy suffix, `normalizeJid` returns it
unchanged. -/
theorem normalizeJid_of_not_legacy {x : Str} (h : legacySuffix.isSuffixOf x = false) :
    normalizeJid x = x := by
  unfold normalizeJid
  rw [h]
  simp

/-- `replace('@c.us', ...)` rewrites the terminal suffix when the local part
contains no `@` (so the suffix occurrence is the first occurrence). -/
theorem replaceFirst_legacy_append {p : Str} (hp : '@' ∉ p) :
    replaceFirst legacySuffix canonicalSuffix (p ++ legacySuffix) = p ++ canonicalSuffix := by
  induction p with
  | nil => decide
  | cons c p ih =>
    have hne : ¬ '@' = c := by
      intro h
      exact hp (by rw [h]; exact List.mem_cons_self c p)
    have hc : ('@' == c) = false := by simp [hne]
    have hp' : '@' ∉ p := fun h => hp (List.mem_cons_of_mem c h)
    have hpre : legacySuffix.isPrefixOf (c :: (p ++ legacySuffix)) = false := by
      show List.isPrefixOf ('@' :: "c.us".toList) _ = false
      simp [List.isPrefixOf, hc]
    rw [List.cons_append, replaceFirst, if_neg (by simp [hpre]), ih hp', List.cons_append]

/-- A suffix of `a ++ b` no longer than `b` is a suffix of `b`. -/
theorem suffix_of_append_ge {α : Type} {l a b : List α} (h : l <:+ a ++ b)
    (hlen : l.length ≤ b.length) : l <:+ b := by
  obtain ⟨t, ht⟩ := h
  have hlt : t.length + l.length = a.length + b.length := by
    have := congrArg List.length ht
    simpa [List.length_append] using this
  have hdrop : (a ++ b).drop t.length = l := by
    rw [← ht, List.drop_left]
  rw [List.drop_append_eq_append_drop, List.drop_eq_nil_of_le (by omega), List.nil_append] at hdrop
  rw [← hdrop]
  exact List.drop_suffix _ _

/-- A string ending in the canonical suffix does not end in the legacy one. -/
theorem not_legacy_of_canonical_append (p : Str) :
    legacySuffix.isSuffixOf (p ++ canonicalSuffix) = false := by
  cases h : legacySuffix.isSuffixOf (p ++ canonicalSuffix) with
  | false => rfl
  | true =>
    have hs : legacySuffix <:+ canonicalSuffix :=
      suffix_of_append_ge (List.isSuffixOf_iff_suffix.mp h) (by decide)
    exact absurd (List.isSuffixOf_iff_suffix.mpr hs) (by decide)

/-- With an `@`-free local part, normalizing the legacy form gives the
canonical form. -/
theorem normalizeJid_legacy_append {p : Str} (hp : '@' ∉ p) :
    normalizeJid (p ++ legacySuffix) = p ++ canonicalSuffix := by
  have hne : (p ++ legacySuffix).isEmpty = false := by
    cases p with
    | nil => decide
    | cons c q => rfl
  have hsuf : legacySuffix.isSuffixOf (p ++ legacySuffix) = true :=
    List.isSuffixOf_iff_suffix.mpr (List.suffix_append p legacySuffix)
  unfold normalizeJid
  rw [hne, hsuf]
  simp [replaceFirst_legacy_append hp]

/-- C6 counterexample: `normalizeJid` is not idempotent on an identifier that
contains `@c.us` internally as well as terminally, because
`String.prototype.replace` rewrites only the first occurrence: normalizing
`"@c.us@c.us"` once gives `"@s.whatsapp.net@c.us"`, and normalizing again
gives `"@s.whatsapp.net@s.whatsapp.net"`. -/
theorem claim_C6_cex :
    normalizeJid (normalizeJid "@c.us@c.us".toList) ≠ normalizeJid "@c.us@c.us".toList := by
  decide

/-- C6 (amended): `normalizeJid` is idempotent on every identifier whose only
occurrence of `@c.us` is the terminal suffix — in particular on every
identifier not ending in `@c.us`, and on every identifier `p ++ "@c.us"` whose
local part `p` contains no `@`; for such a local part the legacy form and the
canonical form of the same peer normalize to the same canonical identifier. -/
theorem claim_C6_normalize_idempotent :
    (∀ x : Str, legacySuffix.isSuffixOf x = false →
      normalizeJid (normalizeJid x) = normalizeJid x) ∧
    (∀ p : Str, '@' ∉ p →
      normalizeJid (normalizeJid (p ++ legacySuffix)) = normalizeJid (p ++ legacySuffix) ∧
      normalizeJid (p ++ legacySuffix) = normalizeJid (p ++ canonicalSuffix)) := by
  constructor
  · intro x h
    rw [normalizeJid_of_not_legacy h, normalizeJid_of_not_legacy h]
  · intro p hp
    have h1 : normalizeJid (p ++ legacySuffix) = p ++ canonicalSuffix :=
      normalizeJid_legacy_append hp
    have h2 : normalizeJid (p ++ canonicalSuffix) = p ++ canonicalSuffix :=
      normalizeJid_of_not_legacy (not_legacy_of_canonical_append p)
    refine ⟨?_, ?_⟩
    · rw [h1, h2]
    · rw [h1, h2]

/-- `applyNameRule` only adjusts the `name` field. -/
theorem applyNameRule_isGroup (upd ex : Chat) (u : ChatUpdate) (g : Bool) :
    (applyNameRule upd ex u g).isGroup = upd.isGroup := by
  unfold applyNameRule
  split
  · split <;> rfl
  · split <;> rfl

theorem applyNameRule_id (upd ex : Chat) (u : ChatUpdate) (g : Bool) :
    (applyNameRule upd ex u g).id = upd.id := by
  unfold applyNameRule
  split
  · split <;> rfl
  · split <;> rfl

/-- Replacing the first id-match introduces no element beyond `v` and `l`'s. -/
theorem mem_setFirstById {c v : Chat} {chatId : Str} :
    ∀ {l : List Chat}, c ∈ setFirstById l chatId v → c = v ∨ c ∈ l := by
  intro l
  induction l with
  | nil => intro h; exact absurd h (by simp [setFirstById])
  | cons a l ih =>
    intro h
    by_cases ha : a.id = chatId
    · rw [setFirstById, if_pos ha] at h
      rcases List.mem_cons.mp h with h | h
      · exact Or.inl h
      · exact Or.inr (List.mem_cons_of_mem a h)
    · rw [setFirstById, if_neg ha] at h
      rcases List.mem_cons.mp h with h | h
      · exact Or.inr (by rw [h]; exact List.mem_cons_self a l)
      · rcases ih h with h | h
        · exact Or.inl h
        · exact Or.inr (List.mem_cons_of_mem a h)

/-- A single good `upsertChat` preserves the `isGroup` invariant. -/
theorem updateChatList_isGroupConsistent {prev : List Chat} {chatId : Str}
    {u : ChatUpdate} {now : Nat} (h0 : IsGroupConsistent prev)
    (hu : u.isGroup = none ∨ u.isGroup = some (groupSuffix.isSuffixOf chatId)) :
    IsGroupConsistent (updateChatList prev chatId u now) := by
  unfold updateChatList
  cases hfind : prev.find? (fun c => decide (c.id = chatId)) with
  | some existing =>
    have hex_mem : existing ∈ prev := List.mem_of_find?_eq_some hfind
    have hex_id : existing.id = chatId := by
      have h := List.find?_some hfind
      simpa using h
    have hupd_id :
        (applyNameRule (spreadChat existing u) existing u (groupSuffix.isSuffixOf chatId)).id
          = chatId := by
      rw [applyNameRule_id]
      show existing.id = chatId
      exact hex_id
    have hupd_g :
        (applyNameRule (spreadChat existing u) existing u (groupSuffix.isSuffixOf chatId)).isGroup
          = some (groupSuffix.isSuffixOf chatId) := by
      rw [applyNameRule_isGroup]
      show (u.isGroup.or existing.isGroup) = some (groupSuffix.isSuffixOf chatId)
      have hex_g : existing.isGroup = some (groupSuffix.isSuffixOf chatId) := by
        rw [h0 existing hex_mem, hex_id]
      rcases hu with hu | hu <;> rw [hu] <;> simp [hex_g]
    simp only
    split
    · intro c hc
      rcases List.mem_cons.mp hc with hc | hc
      · rw [hc, hupd_id, hupd_g]
      · exact h0 c (List.mem_of_mem_filter hc)
    · intro c hc
      rcases mem_setFirstById ((List.mem_insertionSort chatLe).mp hc) with hc | hc
      · rw [hc, hupd_id, hupd_g]
      · exact h0 c hc
  | none =>
    intro c hc
    simp only at hc
    rcases List.mem_cons.mp ((List.mem_insertionSort chatLe).mp hc) with hc | hc
    · have hid : c.id = chatId := by rw [hc]; rfl
      have hg : c.isGroup = u.isGroup.or (some (groupSuffix.isSuffixOf chatId)) := by rw [hc]; rfl
      rw [hid, hg]
      rcases hu with hu | hu <;> rw [hu] <;> simp
    · exact h0 c hc

/-- C8 counterexample: an `upsertChat` payload carrying `isGroup: true` for an
individual id is spread straight into the entry, contradicting the
suffix-derived value. -/
theorem claim_C8_cex :
    (updateChatList [] "1@s.whatsapp.net".toList { isGroup := some true } 0).map
      (fun c => (c.isGroup, groupSuffix.isSuffixOf c.id)) = [(some true, false)] := by
  decide

/-- C8 (amended): starting from any collection satisfying the invariant, after
any sequence of `upsertChat` operations whose payloads' `isGroup` field, when
present, equals the suffix-derived value (as every caller in the repository
supplies), every stored chat's `isGroup` equals the group-suffix predicate on
its id.  An arbitrary payload can contradict the invariant, because the
object spread copies `update.isGroup` into the entry unchecked. -/
theorem claim_C8_isGroup_invariant (init : List Chat) (ops : List UpsertOp)
    (h0 : IsGroupConsistent init) (hops : ∀ op ∈ ops, GoodIsGroupOp op) :
    IsGroupConsistent (applyUpserts init ops) := by
  induction ops generalizing init with
  | nil => exact h0
  | cons op ops ih =>
    have hop := hops op (List.mem_cons_self op ops)
    exact ih _ (updateChatList_isGroupConsistent h0 hop)
      (fun o ho => hops o (List.mem_cons_of_mem op ho))

/-- C8 witness: one group-chat creation through a well-formed payload. -/
theorem claim_C8_witness :
    IsGroupConsistent [] ∧
    (∀ op ∈ [UpsertOp.mk "g@g.us".toList { name := some "Grp".toList } 3], GoodIsGroupOp op) ∧
    IsGroupConsistent
      (applyUpserts [] [UpsertOp.mk "g@g.us".toList { name := some "Grp".toList } 3]) :=
  ⟨by intro c hc; exact absurd hc (by simp),
   by intro op hop; rw [List.mem_singleton.mp hop]; exact Or.inl rfl,
   claim_C8_isGroup_invariant [] _ (by intro c hc; exact absurd hc (by simp))
     (by intro op hop; rw [List.mem_singleton.mp hop]; exact Or.inl rfl)⟩

/-- C2 (code-bug evaluation): upserting `{ name: "Alice, Bob" }` onto an
existing group chat stores the member-list-shaped name.  The object spread
`{ ...existing, ...update }` has already written `update.name` into the entry
when the member-list guard runs, and the guard only decides whether to
overwrite it again, so the member-list value survives in the store. -/
theorem claim_C2_memberlist_written :
    (updateChatList [{ id := "g@g.us".toList, name := some "Team".toList, timestamp := some 5 }]
        "g@g.us".toList { name := some "Alice, Bob".toList } 0).map Chat.name =
      [some "Alice, Bob".toList] ∧
    looksLikeMemberList (some "Alice, Bob".toList) = true := by
  constructor <;> decide

/-- C6 witness: concrete identifiers for both amended cases. -/
theorem claim_C6_witness :
    (legacySuffix.isSuffixOf "abc".toList = false ∧
      normalizeJid (normalizeJid "abc".toList) = normalizeJid "abc".toList) ∧
    ('@' ∉ "123".toList ∧
      normalizeJid (normalizeJid ("123".toList ++ legacySuffix)) =
        normalizeJid ("123".toList ++ legacySuffix) ∧
      normalizeJid ("123".toList ++ legacySuffix) = normalizeJid ("123".toList ++ canonicalSuffix)) :=
  ⟨⟨by decide, claim_C6_normalize_idempotent.1 _ (by decide)⟩,
   ⟨by decide, claim_C6_normalize_idempotent.2 _ (by decide)⟩⟩

/-- C1: (i) a stored manual override under the normalized id is returned
regardless of any contact name/notify data or hints; (ii) with no effective
override, a member-list-shaped contact `name` is never the source of the
result — the result is the same as if the contact had no `name` at all;
(iii) for an individual (non-group) id with no effective override and no
usable contact name, the contact's non-empty `notify` is returned. -/
theorem getDisplayName_override_wins (ov : OverridesMap) (contacts : ContactsMap)
    (id : Str) (cn gs : Option Str) (v : Str) (hid : id ≠ [])
    (hov : ov (normalizeJid id) = some v) (hv : v ≠ []) :
    getDisplayName ov contacts id cn gs = v := by
  have hie : id.isEmpty = false := by simp [List.isEmpty_iff, hid]
  unfold getDisplayName
  simp only [hie, Bool.false_eq_true, if_false, hov]
  rw [if_pos (by simp [truthyS, List.isEmpty_iff, hv])]
  rfl

theorem getDisplayName_memberlist_skipped (ov : OverridesMap)
    (contacts contacts' : ContactsMap) (id : Str) (cn gs : Option Str) (c : Contact)
    (hc : getContactById contacts (normalizeJid id) = some c)
    (hml : looksLikeMemberList c.name = true)
    (hc' : getContactById contacts' (normalizeJid id) = some { c with name := none }) :
    getDisplayName ov contacts id cn gs = getDisplayName ov contacts' id cn gs := by
  unfold getDisplayName
  cases hie : id.isEmpty with
  | true => rfl
  | false =>
    simp only [hie, Bool.false_eq_true, if_false, hc, hc', Option.bind_some]
    by_cases hov : truthyS (ov (normalizeJid id)) = true
    · simp only [hov, if_true]
    · have h1 : ¬ ((truthyS c.name && !looksLikeMemberList c.name) = true) := by
        rw [hml]
        simp
      have h2 : ¬ ((truthyS ((some ({ id := c.id, name := none, notify := c.notify } : Contact)).bind
          fun a => a.name) &&
          !looksLikeMemberList ((some ({ id := c.id, name := none, notify := c.notify } : Contact)).bind
          fun a => a.name)) = true) := by
        simp [truthyS]
      rw [if_neg hov, if_neg hov]
      simp only [show ((some c).bind fun a => a.name) = c.name from rfl,
        show ((some c).bind fun a => a.notify) = c.notify from rfl]
      rw [if_neg h1, if_neg h2]
      rfl

theorem getDisplayName_notify_next (ov : OverridesMap) (contacts : ContactsMap)
    (id : Str) (cn gs : Option Str) (c : Contact) (v : Str) (hid : id ≠ [])
    (hov : truthyS (ov (normalizeJid id)) = false)
    (hc : getContactById contacts (normalizeJid id) = some c)
    (hname : (truthyS c.name && !looksLikeMemberList c.name) = false)
    (hgrp : groupSuffix.isSuffixOf (normalizeJid id) = false)
    (hnot : c.notify = some v) (hv : v ≠ []) :
    getDisplayName ov contacts id cn gs = v := by
  have hie : id.isEmpty = false := by simp [List.isEmpty_iff, hid]
  have hnotv : truthyS (some v) = true := by simp [truthyS, List.isEmpty_iff, hv]
  unfold getDisplayName
  simp only [hie, Bool.false_eq_true, if_false, hc, hov, hgrp,
    show ((some c).bind fun a => a.name) = c.name from rfl,
    show ((some c).bind fun a => a.notify) = c.notify from rfl,
    hname, hnot, Option.getD_some, Bool.not_false, Bool.true_and, hnotv, if_true]

/-- C1: (i) a stored manual override under the normalized id is returned
regardless of any contact name/notify data or hints; (ii) with no effective
override, a member-list-shaped contact `name` is never the source of the
result — the result is the same as if the contact had no `name` at all;
(iii) for an individual (non-group) id with no effective override and no
usable contact name, the contact's non-empty `notify` is returned. -/
theorem claim_C1_name_resolution :
    (∀ (ov : OverridesMap) (contacts : ContactsMap) (id : Str) (cn gs : Option Str) (v : Str),
      id ≠ [] → ov (normalizeJid id) = some v → v ≠ [] →
      getDisplayName ov contacts id cn gs = v) ∧
    (∀ (ov : OverridesMap) (contacts contacts' : ContactsMap) (id : Str) (cn gs : Option Str)
        (c : Contact),
      getContactById contacts (normalizeJid id) = some c →
      looksLikeMemberList c.name = true →
      getContactById contacts' (normalizeJid id) = some { c with name := none } →
      getDisplayName ov contacts id cn gs = getDisplayName ov contacts' id cn gs) ∧
    (∀ (ov : OverridesMap) (contacts : ContactsMap) (id : Str) (cn gs : Option Str)
        (c : Contact) (v : Str),
      id ≠ [] →
      truthyS (ov (normalizeJid id)) = false →
      getContactById contacts (normalizeJid id) = some c →
      (truthyS c.name && !looksLikeMemberList c.name) = false →
      groupSuffix.isSuffixOf (normalizeJid id) = false →
      c.notify = some v → v ≠ [] →
      getDisplayName ov contacts id cn gs = v) :=
  ⟨fun ov contacts id cn gs v hid hov hv =>
      getDisplayName_override_wins ov contacts id cn gs v hid hov hv,
   fun ov contacts contacts' id cn gs c hc hml hc' =>
      getDisplayName_memberlist_skipped ov contacts contacts' id cn gs c hc hml hc',
   fun ov contacts id cn gs c v hid hov hc hname hgrp hnot hv =>
      getDisplayName_notify_next ov contacts id cn gs c v hid hov hc hname hgrp hnot hv⟩

/-- Two entries found at increasing positions form a sublist. -/
theorem pair_sublist_of_getElem {α : Type} :
    ∀ (l : List α) (i j : Nat) (x y : α), i < j → l[i]? = some x → l[j]? = some y →
      [x, y].Sublist l := by
  intro l
  induction l with
  | nil => intro i j x y _ hx _; simp at hx
  | cons a l ih =>
    intro i j x y hij hx hy
    cases i with
    | zero =>
      have hax : a = x := by simpa using hx
      cases j with
      | zero => omega
      | succ j =>
        have hy' : l[j]? = some y := by simpa using hy
        have hym : y ∈ l := List.getElem?_mem hy'
        rw [← hax]
        exact List.Sublist.cons₂ a (List.singleton_sublist.mpr hym)
    | succ i =>
      cases j with
      | zero => omega
      | succ j =>
        have hx' : l[i]? = some x := by simpa using hx
        have hy' : l[j]? = some y := by simpa using hy
        exact List.Sublist.cons a (ih i j x y (by omega) hx' hy')

/-- Positions whose entry does not match the replaced id are untouched by
`setFirstById`. -/
theorem getElem?_setFirstById_ne :
    ∀ (l : List Chat) (chatId : Str) (v : Chat) (i : Nat) (x : Chat),
      l[i]? = some x → x.id ≠ chatId →
      (setFirstById l chatId v)[i]? = some x := by
  intro l
  induction l with
  | nil => intro chatId v i x hx _; simp at hx
  | cons a l ih =>
    intro chatId v i x hx hne
    by_cases ha : a.id = chatId
    · have hrw : setFirstById (a :: l) chatId v = v :: l := by rw [setFirstById, if_pos ha]
      cases i with
      | zero =>
        have hax : a = x := by simpa using hx
        exact absurd (hax ▸ ha) hne
      | succ i =>
        rw [hrw]
        simpa using hx
    · have hrw : setFirstById (a :: l) chatId v = a :: setFirstById l chatId v := by
        rw [setFirstById, if_neg ha]
      cases i with
      | zero =>
        rw [hrw]
        simpa using hx
      | succ i =>
        rw [hrw]
        have hx' : l[i]? = some x := by simpa using hx
        simpa using ih chatId v i x hx' hne

/-- `Pairwise` gives the relation at any two increasing found positions. -/
theorem pairwise_rel_of_getElem {α : Type} {R : α → α → Prop} {l : List α}
    (h : l.Pairwise R) {i j : Nat} {x y : α} (hij : i < j)
    (hx : l[i]? = some x) (hy : l[j]? = some y) : R x y := by
  rw [List.pairwise_iff_getElem] at h
  obtain ⟨hi, hx'⟩ := List.getElem?_eq_some.mp hx
  obtain ⟨hj, hy'⟩ := List.getElem?_eq_some.mp hy
  have := h i j hi hj hij
  rwa [hx', hy'] at this

/-- C4 counterexample.  First input: creating a chat through an upsert whose
payload has a non-empty `lastMessage` but an older timestamp places it at
index 1, not 0 (the move-to-front branch only covers existing chats).  Second
input: after `cId` is moved to the front, an upsert to `bId` without
`lastMessage` re-sorts the whole list, and the pair `(cId, aId)` — neither of
which is the updated chat — flips from `c` before `a` to `a` before `c`. -/
theorem claim_C4_cex :
    ((updateChatList [{ id := aId, timestamp := some 100 }] bId
        { lastMessage := some "hi".toList, timestamp := some 50 } 7).head?.map Chat.id ≠
      some bId) ∧
    ((applyUpserts chatsABC [⟨cId, { lastMessage := some "m".toList }, 0⟩]).map Chat.id =
      [cId, aId, bId]) ∧
    ((applyUpserts chatsABC [⟨cId, { lastMessage := some "m".toList }, 0⟩,
        ⟨bId, { presence := some "x".toList }, 0⟩]).map Chat.id = [aId, bId, cId]) := by
  refine ⟨by decide, by decide, by decide⟩

/-- C4 (amended): an `upsertChat` on an *existing* chat whose payload includes
a non-empty `lastMessage` relocates that chat to index 0 (a newly created
chat is instead placed by the timestamp-descending sort); an `upsertChat` on
an existing chat without `lastMessage` re-sorts the list by timestamp
descending with a stable sort, which preserves the relative order of any pair
of chats other than the updated one provided the stored list was already
sorted by timestamp descending. -/
theorem claim_C4_reordering :
    (∀ (prev : List Chat) (chatId : Str) (u : ChatUpdate) (now : Nat) (existing : Chat),
      prev.find? (fun c => decide (c.id = chatId)) = some existing →
      truthyS u.lastMessage = true →
      (updateChatList prev chatId u now).head?.map Chat.id = some chatId) ∧
    (∀ (prev : List Chat) (chatId : Str) (u : ChatUpdate) (now : Nat) (existing x y : Chat)
        (jx jy : Nat),
      jx < jy →
      prev[jx]? = some x → prev[jy]? = some y →
      prev.find? (fun c => decide (c.id = chatId)) = some existing →
      truthyS u.lastMessage = false →
      prev.Pairwise chatLe →
      x.id ≠ chatId → y.id ≠ chatId →
      [x, y].Sublist (updateChatList prev chatId u now)) := by
  constructor
  · intro prev chatId u now existing hfind hlm
    have hex_id : existing.id = chatId := by
      have h := List.find?_some hfind
      simpa using h
    unfold updateChatList
    rw [hfind]
    simp only [hlm, if_true, List.head?_cons, Option.map_some']
    rw [applyNameRule_id]
    show some existing.id = some chatId
    rw [hex_id]
  · intro prev chatId u now existing x y jx jy hij hx hy hfind hlm hpw hnex hney
    have hsub : [x, y].Sublist
        (setFirstById prev chatId
          (applyNameRule (spreadChat existing u) existing u (groupSuffix.isSuffixOf chatId))) :=
      pair_sublist_of_getElem _ jx jy x y hij
        (getElem?_setFirstById_ne _ _ _ _ _ hx hnex)
        (getElem?_setFirstById_ne _ _ _ _ _ hy hney)
    have hle : chatLe x y := pairwise_rel_of_getElem hpw hij hx hy
    unfold updateChatList
    rw [hfind]
    simp only [hlm, Bool.false_eq_true, if_false]
    exact List.pair_sublist_insertionSort hle hsub

/-- C4 witness: concrete instances for both amended statements. -/
theorem claim_C4_witness :
    ((updateChatList chatsABC bId { lastMessage := some "hi".toList } 0).head?.map Chat.id =
      some bId) ∧
    [({ id := aId, timestamp := some 100 } : Chat),
     ({ id := cId, timestamp := some 10 } : Chat)].Sublist
      (updateChatList chatsABC bId { presence := some "x".toList } 0) :=
  ⟨claim_C4_reordering.1 chatsABC bId { lastMessage := some "hi".toList } 0
      { id := bId, timestamp := some 50 } (by decide) (by decide),
   claim_C4_reordering.2 chatsABC bId { presence := some "x".toList } 0
      { id := bId, timestamp := some 50 } { id := aId, timestamp := some 100 }
      { id := cId, timestamp := some 10 } 0 2 (by decide) (by decide) (by decide)
      (by decide) (by decide) (by decide) (by decide) (by decide)⟩

/-- C1 witness: an override `"Alice"` beats a member-list contact name and a
notify; erasing a member-list contact name leaves resolution unchanged; and
with no override an individual falls back to its non-empty notify. -/
theorem claim_C1_witness :
    (getDisplayName
        (fun k => if k = "123@s.whatsapp.net".toList then some "Alice".toList else none)
        (fun k => if k = "123@s.whatsapp.net".toList then
          some { id := "123@s.whatsapp.net".toList, name := some "Bob, Carl".toList,
                 notify := some "Zed".toList } else none)
        "123@c.us".toList (some "99".toList) none = "Alice".toList) ∧
    (getDisplayName (fun _ => none)
        (fun k => if k = "123@s.whatsapp.net".toList then
          some { id := "123@s.whatsapp.net".toList, name := some "Bob, Carl".toList,
                 notify := some "Zed".toList } else none)
        "123@c.us".toList (some "99".toList) none =
      getDisplayName (fun _ => none)
        (fun k => if k = "123@s.whatsapp.net".toList then
          some { id := "123@s.whatsapp.net".toList, name := none,
                 notify := some "Zed".toList } else none)
        "123@c.us".toList (some "99".toList) none) ∧
    (getDisplayName (fun _ => none)
        (fun k => if k = "123@s.whatsapp.net".toList then
          some { id := "123@s.whatsapp.net".toList, name := some "Bob, Carl".toList,
                 notify := some "Zed".toList } else none)
        "123@c.us".toList (some "99".toList) none = "Zed".toList) :=
  ⟨claim_C1_name_resolution.1 _ _ _ _ _ _ (by decide) (by decide) (by decide),
   claim_C1_name_resolution.2.1 _ _ _ _ _ _
      { id := "123@s.whatsapp.net".toList, name := some "Bob, Carl".toList,
        notify := some "Zed".toList }
      (by decide) (by decide) (by decide),
   claim_C1_name_resolution.2.2 _ _ _ _ _
      { id := "123@s.whatsapp.net".toList, name := some "Bob, Carl".toList,
        notify := some "Zed".toList }
      _ (by decide) (by decide) (by decide) (by decide) (by decide) (by decide) (by decide)⟩

theorem or_absorb {α : Type} (a b : Option α) : a.or (a.or b) = a.or b := by
  cases a <;> rfl

/-- Re-merging the same update into an already merged entry changes nothing. -/
theorem mergedEntry_idem (e : Chat) (chatId : Str) (u : ChatUpdate) :
    mergedEntry (mergedEntry e chatId u) chatId u = mergedEntry e chatId u := by
  unfold mergedEntry applyNameRule spreadChat jsOrS
  split_ifs <;> simp_all [or_absorb]

/-- Re-merging the same update into the entry it created changes nothing. -/
theorem mergedEntry_created (chatId : Str) (u : ChatUpdate) (now : Nat) :
    mergedEntry (createdEntry chatId u now) chatId u = createdEntry chatId u now := by
  unfold mergedEntry createdEntry applyNameRule spreadChat jsOrS
  split_ifs <;> simp_all [or_absorb]

theorem mergedEntry_id (existing : Chat) (chatId : Str) (u : ChatUpdate) :
    (mergedEntry existing chatId u).id = existing.id := by
  unfold mergedEntry
  rw [applyNameRule_id]
  rfl

/-- The two branches of `updateChatList`, written with the named entries. -/
theorem updateChatList_found {prev : List Chat} {chatId : Str} (u : ChatUpdate) (now : Nat)
    {existing : Chat} (hfind : prev.find? (fun c => decide (c.id = chatId)) = some existing) :
    updateChatList prev chatId u now =
      if truthyS u.lastMessage then
        mergedEntry existing chatId u :: prev.filter (fun c => decide (c.id ≠ chatId))
      else List.insertionSort chatLe (setFirstById prev chatId (mergedEntry existing chatId u)) := by
  unfold updateChatList mergedEntry
  rw [hfind]

theorem updateChatList_not_found {prev : List Chat} {chatId : Str} (u : ChatUpdate) (now : Nat)
    (hfind : prev.find? (fun c => decide (c.id = chatId)) = none) :
    updateChatList prev chatId u now =
      List.insertionSort chatLe (createdEntry chatId u now :: prev) := by
  unfold updateChatList createdEntry
  rw [hfind]

/-- `find?` returns the distinguished element when it is the only match. -/
theorem chatEntry_eq_of_unique {l : List Chat} {chatId : Str} {v : Chat}
    (hv : v ∈ l) (hvid : v.id = chatId) (huniq : ∀ c ∈ l, c.id = chatId → c = v) :
    chatEntry l chatId = some v := by
  induction l with
  | nil => cases hv
  | cons a l ih =>
    unfold chatEntry
    by_cases ha : a.id = chatId
    · rw [List.find?_cons_of_pos _ (by simpa using ha)]
      rw [huniq a (List.mem_cons_self a l) ha]
    · rw [List.find?_cons_of_neg _ (by simpa using ha)]
      have hvl : v ∈ l := by
        rcases List.mem_cons.mp hv with h | h
        · exact absurd (h ▸ hvid) ha
        · exact h
      exact ih hvl (fun c hc hcid => huniq c (List.mem_cons_of_mem a hc) hcid)

/-- The replacement is present whenever the list contained a match. -/
theorem self_mem_setFirstById {l : List Chat} {chatId : Str} {existing : Chat} (v : Chat)
    (hfind : l.find? (fun c => decide (c.id = chatId)) = some existing) :
    v ∈ setFirstById l chatId v := by
  induction l with
  | nil => simp at hfind
  | cons a l ih =>
    by_cases ha : a.id = chatId
    · rw [setFirstById, if_pos ha]
      exact List.mem_cons_self v l
    · rw [setFirstById, if_neg ha]
      rw [List.find?_cons_of_neg _ (by simpa using ha)] at hfind
      exact List.mem_cons_of_mem a (ih hfind)

/-- With pairwise-distinct ids, the only possible match left after replacing
the first matching entry is the replacement itself. -/
theorem setFirstById_unique_match {chatId : Str} {v : Chat} :
    ∀ {l : List Chat}, UniqueIds l → ∀ {c : Chat}, c ∈ setFirstById l chatId v →
      c.id = chatId → c = v := by
  intro l
  induction l with
  | nil => intro _ c hc _; simp [setFirstById] at hc
  | cons a l ih =>
    intro hu c hc hcid
    have hu' := hu
    unfold UniqueIds at hu'
    rw [List.map_cons, List.nodup_cons] at hu'
    by_cases ha : a.id = chatId
    · rw [setFirstById, if_pos ha] at hc
      rcases List.mem_cons.mp hc with h | h
      · exact h
      · have ham : a.id ∈ List.map Chat.id l := by
          rw [ha, ← hcid]
          exact List.mem_map_of_mem Chat.id h
        exact absurd ham hu'.1
    · rw [setFirstById, if_neg ha] at hc
      rcases List.mem_cons.mp hc with h | h
      · exact absurd (h ▸ hcid) ha
      · exact ih hu'.2 h hcid

/-- Replacing the first match by an entry with the matching id leaves the id
multiset untouched. -/
theorem map_id_setFirstById {chatId : Str} {v : Chat} (hv : v.id = chatId) :
    ∀ (l : List Chat), (setFirstById l chatId v).map Chat.id = l.map Chat.id := by
  intro l
  induction l with
  | nil => rfl
  | cons a l ih =>
    by_cases ha : a.id = chatId
    · rw [setFirstById, if_pos ha, List.map_cons, List.map_cons, hv, ha]
    · rw [setFirstById, if_neg ha, List.map_cons, List.map_cons, ih]

/-- `upsertChat` preserves the one-entry-per-conversation invariant. -/
theorem uniqueIds_updateChatList {prev : List Chat} {chatId : Str} {u : ChatUpdate} {now : Nat}
    (h : UniqueIds prev) : UniqueIds (updateChatList prev chatId u now) := by
  cases hfind : prev.find? (fun c => decide (c.id = chatId)) with
  | some existing =>
    have hexid : existing.id = chatId := by simpa using List.find?_some hfind
    rw [updateChatList_found u now hfind]
    split
    · unfold UniqueIds
      rw [List.map_cons, List.nodup_cons]
      constructor
      · intro hmem
        rcases List.mem_map.mp hmem with ⟨c, hc, hcid⟩
        have : c.id ≠ chatId := by simpa using List.of_mem_filter hc
        rw [mergedEntry_id, hexid] at hcid
        exact this hcid
      · exact ((List.filter_sublist prev).map Chat.id).nodup h
    · unfold UniqueIds
      have hperm : List.Perm
          ((List.insertionSort chatLe
            (setFirstById prev chatId (mergedEntry existing chatId u))).map Chat.id)
          ((setFirstById prev chatId (mergedEntry existing chatId u)).map Chat.id) :=
        (List.perm_insertionSort chatLe _).map Chat.id
      rw [hperm.nodup_iff, map_id_setFirstById (by rw [mergedEntry_id, hexid])]
      exact h
  | none =>
    rw [updateChatList_not_found u now hfind]
    unfold UniqueIds
    have hperm : List.Perm
        ((List.insertionSort chatLe (createdEntry chatId u now :: prev)).map Chat.id)
        ((createdEntry chatId u now :: prev).map Chat.id) :=
      (List.perm_insertionSort chatLe _).map Chat.id
    rw [hperm.nodup_iff, List.map_cons, List.nodup_cons]
    constructor
    · intro hmem
      rcases List.mem_map.mp hmem with ⟨c, hc, hcid⟩
      have := List.find?_eq_none.mp hfind c hc
      simp only [decide_eq_true_eq] at this
      exact this hcid
    · exact h

/-- The stored entry after an `upsertChat` on an existing conversation. -/
theorem chatEntry_updateChatList_found {prev : List Chat} {chatId : Str} (u : ChatUpdate)
    (now : Nat) {existing : Chat} (h : UniqueIds prev)
    (hfind : prev.find? (fun c => decide (c.id = chatId)) = some existing) :
    chatEntry (updateChatList prev chatId u now) chatId = some (mergedEntry existing chatId u) := by
  have hexid : existing.id = chatId := by simpa using List.find?_some hfind
  have hmid : (mergedEntry existing chatId u).id = chatId := by rw [mergedEntry_id, hexid]
  rw [updateChatList_found u now hfind]
  split
  · apply chatEntry_eq_of_unique (List.mem_cons_self _ _) hmid
    intro c hc hcid
    rcases List.mem_cons.mp hc with h | h
    · exact h
    · exact absurd hcid (by simpa using List.of_mem_filter h)
  · apply chatEntry_eq_of_unique
      ((List.mem_insertionSort chatLe).mpr (self_mem_setFirstById _ hfind)) hmid
    intro c hc hcid
    exact setFirstById_unique_match h ((List.mem_insertionSort chatLe).mp hc) hcid

/-- The stored entry after an `upsertChat` that creates the conversation. -/
theorem chatEntry_updateChatList_not_found {prev : List Chat} {chatId : Str} (u : ChatUpdate)
    (now : Nat) (hfind : prev.find? (fun c => decide (c.id = chatId)) = none) :
    chatEntry (updateChatList prev chatId u now) chatId = some (createdEntry chatId u now) := by
  rw [updateChatList_not_found u now hfind]
  apply chatEntry_eq_of_unique
    ((List.mem_insertionSort chatLe).mpr (List.mem_cons_self _ _)) rfl
  intro c hc hcid
  rcases List.mem_cons.mp ((List.mem_insertionSort chatLe).mp hc) with h | h
  · exact h
  · have := List.find?_eq_none.mp hfind c h
    simp only [decide_eq_true_eq] at this
    exact absurd hcid this

theorem contactWrites_cons (k : Str) (c : Contact) (L : List Contact) :
    contactWrites k (c :: L) = contactWrites k [c] ++ contactWrites k L := by
  simp [contactWrites]

theorem applyWrites_append (k : Str) (x : Option Contact) (w1 w2 : List Contact) :
    applyWrites k x (w1 ++ w2) = applyWrites k (applyWrites k x w1) w2 := by
  unfold applyWrites
  rw [List.foldl_append]

/-- One `updateContacts` step, observed at key `k`, performs exactly the
writes `contactWrites k [c]`. -/
theorem updateContacts_step (m : ContactsMap) (c : Contact) (k : Str) :
    (mapInsert (mapInsert m (normalizeJid c.id)
        (mergeContact (m (normalizeJid c.id)) c (normalizeJid c.id))) c.id
        (mergeContact ((mapInsert m (normalizeJid c.id)
          (mergeContact (m (normalizeJid c.id)) c (normalizeJid c.id))) c.id) c c.id)) k =
      applyWrites k (m k) (contactWrites k [c]) := by
  by_cases h1 : normalizeJid c.id = k
  · by_cases h2 : c.id = k
    · subst h2
      simp [contactWrites, applyWrites, mapInsert, h1]
    · simp [contactWrites, applyWrites, mapInsert, h1, h2, Ne.symm h2]
  · by_cases h2 : c.id = k
    · subst h2
      simp [contactWrites, applyWrites, mapInsert, h1, Ne.symm h1]
    · simp [contactWrites, applyWrites, mapInsert, h1, h2, Ne.symm h1, Ne.symm h2]

/-- Pointwise semantics of `updateContacts`: the value at `k` is the fold of
the writes targeting `k`. -/
theorem updateContacts_eq_applyWrites (L : List Contact) :
    ∀ (m : ContactsMap) (k : Str),
      updateContacts m L k = applyWrites k (m k) (contactWrites k L) := by
  induction L with
  | nil => intro m k; rfl
  | cons c L ih =>
    intro m k
    show updateContacts _ L k = _
    rw [ih]
    have hstep := updateContacts_step m c k
    rw [contactWrites_cons, applyWrites_append, ← hstep]

theorem orFold_cons {α : Type} (o : Option α) (l : List (Option α)) (a : Option α) :
    orFold (o :: l) a = orFold l (o.or a) := rfl

theorem orFold_eq_or {α : Type} (l : List (Option α)) :
    ∀ a : Option α, orFold l a = (orFold l none).or a := by
  induction l with
  | nil => intro a; rfl
  | cons o l ih =>
    intro a
    rw [orFold_cons, orFold_cons, ih (o.or a), ih (o.or none)]
    cases o <;> cases orFold l none <;> rfl

theorem orFold_absorb {α : Type} (l : List (Option α)) (a : Option α) :
    orFold l (orFold l a) = orFold l a := by
  rw [orFold_eq_or l (orFold l a), orFold_eq_or l a]
  cases orFold l none <;> rfl

/-- Closed form of a non-empty write fold: latest present field wins. -/
theorem applyWrites_closed (k : Str) :
    ∀ (ws : List Contact) (x : Option Contact), ws ≠ [] →
      applyWrites k x ws = some
        { id := k
          name := orFold (ws.map Contact.name) (x.bind Contact.name)
          notify := orFold (ws.map Contact.notify) (x.bind Contact.notify) } := by
  intro ws
  induction ws with
  | nil => intro x h; exact absurd rfl h
  | cons c ws ih =>
    intro x _
    cases ws with
    | nil => rfl
    | cons c2 ws2 =>
      show applyWrites k (some (mergeContact x c k)) (c2 :: ws2) = _
      rw [ih (some (mergeContact x c k)) (by simp)]
      rfl

/-- Replaying the same write list over its own result changes nothing. -/
theorem applyWrites_absorb (k : Str) (ws : List Contact) (x : Option Contact) :
    applyWrites k (applyWrites k x ws) ws = applyWrites k x ws := by
  cases hws : ws with
  | nil => rfl
  | cons c ws2 =>
    rw [← hws, applyWrites_closed k ws x (by rw [hws]; simp),
      applyWrites_closed k ws _ (by rw [hws]; simp)]
    simp only [Option.some_bind]
    rw [orFold_absorb, orFold_absorb]

/-- C7: applying the same `upsertChat` payload twice (over a collection with
one entry per conversation, as the data model requires) stores the same chat
entry as applying it once; applying the same `upsertContacts` payload twice
yields the same contact entry at every key as applying it once. -/
theorem claim_C7_upsert_idempotent :
    (∀ (prev : List Chat) (chatId : Str) (u : ChatUpdate) (n1 n2 : Nat),
      UniqueIds prev →
      chatEntry (updateChatList (updateChatList prev chatId u n1) chatId u n2) chatId =
        chatEntry (updateChatList prev chatId u n1) chatId) ∧
    (∀ (m : ContactsMap) (L : List Contact) (k : Str),
      updateContacts (updateContacts m L) L k = updateContacts m L k) := by
  constructor
  · intro prev chatId u n1 n2 h
    have h1 : UniqueIds (updateChatList prev chatId u n1) := uniqueIds_updateChatList h
    cases hfind : prev.find? (fun c => decide (c.id = chatId)) with
    | some existing =>
      have e1 := chatEntry_updateChatList_found u n1 h hfind
      have e2 := chatEntry_updateChatList_found u n2 h1 e1
      rw [e2, e1, mergedEntry_idem]
    | none =>
      have e1 := chatEntry_updateChatList_not_found u n1 hfind
      have e2 := chatEntry_updateChatList_found u n2 h1 e1
      rw [e2, e1, mergedEntry_created]
  · intro m L k
    rw [updateContacts_eq_applyWrites L m k,
      updateContacts_eq_applyWrites L (updateContacts m L) k,
      updateContacts_eq_applyWrites L m k, applyWrites_absorb]

/-- C7 witness: a duplicate-free store with one chat and one contact payload. -/
theorem claim_C7_witness :
    (UniqueIds chatsABC ∧
      chatEntry (updateChatList (updateChatList chatsABC bId
          { name := some "Bee".toList, lastMessage := some "m".toList } 3) bId
          { name := some "Bee".toList, lastMessage := some "m".toList } 9) bId =
        chatEntry (updateChatList chatsABC bId
          { name := some "Bee".toList, lastMessage := some "m".toList } 3) bId) ∧
    updateContacts (updateContacts (fun _ => none)
        [{ id := "7@c.us".toList, name := some "Ann".toList }])
        [{ id := "7@c.us".toList, name := some "Ann".toList }] "7@s.whatsapp.net".toList =
      updateContacts (fun _ => none)
        [{ id := "7@c.us".toList, name := some "Ann".toList }] "7@s.whatsapp.net".toList :=
  ⟨⟨by unfold UniqueIds; decide,
    claim_C7_upsert_idempotent.1 chatsABC bId
      { name := some "Bee".toList, lastMessage := some "m".toList } 3 9
      (by unfold UniqueIds; decide)⟩,
   claim_C7_upsert_idempotent.2 (fun _ => none)
      [{ id := "7@c.us".toList, name := some "Ann".toList }] "7@s.whatsapp.net".toList⟩

end WAC
